import Mathlib

/-
Shallow embedding of the TaskMaster Pro task store (src/script.js).

JavaScript strings are modelled as lists of characters (`JsStr`), so that the
string operations the code uses (trim, toLowerCase, includes, truthiness)
become plain list functions.  The browser's `localStorage` slot `tasks` is
modelled as an `Option StoredString` (absent key = `none`); a stored string is
represented by the outcome of parsing it as JSON: a well-formed JSON document
is identified with its parse tree (`StoredString.wellFormed`), a string that
`JSON.parse` rejects is kept as raw text (`StoredString.malformed`).
`JSON.stringify` and `JSON.parse` are browser built-ins, not code of this
repository; they are modelled through that representation: `JSON.stringify`
always emits a well-formed document whose parse tree is the serialized value,
and `JSON.parse` throws exactly on malformed input.  Exceptions thrown by
`JSON.parse` are modelled with `Except`.

DOM reads and writes (form fields, rendering, alert/confirm dialogs) are out
of scope per the spec; where a method's behaviour depends on them the
dependency is made an explicit argument (the form values given to `addTask`,
the clock reading `Date.now()`, the user's answer to the `confirm` dialog) or
an explicit result (the `alert` message returned by `addTask`).
-/

namespace TaskMaster

/-- JavaScript string, modelled as a list of characters. -/
abbrev JsStr := List Char

/-- Model of JavaScript `String.prototype.trim`: drop leading and trailing
whitespace. -/
def JsStr.trim (s : JsStr) : JsStr :=
  ((s.dropWhile Char.isWhitespace).reverse.dropWhile Char.isWhitespace).reverse

/-- Model of JavaScript `String.prototype.toLowerCase`. -/
def JsStr.toLower (s : JsStr) : JsStr :=
  s.map Char.toLower

/-- Model of JavaScript `hay.includes(needle)`: substring test, scanning for a
position where `needle` is a prefix of the remaining text. -/
def JsStr.includes (hay needle : JsStr) : Bool :=
  match hay with
  | [] => needle.isEmpty
  | _ :: rest => needle.isPrefixOf hay || JsStr.includes rest needle

/-- Model of `Date.now().toString()` applied to a clock reading `now` (the
millisecond count), src/script.js line 66: the decimal digits of `now`. -/
def natToJsStr (n : Nat) : JsStr :=
  (Nat.repr n).toList

/-- A task record, src/script.js lines 65-73.  All fields the code stores. -/
structure Task where
  id : JsStr
  title : JsStr
  description : JsStr
  dueDate : JsStr
  priority : JsStr
  completed : Bool
  createdAt : JsStr
deriving DecidableEq

/-- The form values `addTask` reads from the DOM (src/script.js lines 53-56),
before any trimming. -/
structure Draft where
  title : JsStr
  description : JsStr
  dueDate : JsStr
  priority : JsStr
deriving DecidableEq

/-- A JSON value, the parse tree of a well-formed JSON document. -/
inductive Json where
  | null
  | bool (b : Bool)
  | num (n : Int)
  | str (s : JsStr)
  | arr (elems : List Json)
  | obj (members : List (JsStr × Json))

/-- A string value sitting in the backing store, represented by the outcome of
parsing it as JSON: either a well-formed document, identified with its parse
tree, or a malformed one, kept as raw text. -/
inductive StoredString where
  | wellFormed (j : Json)
  | malformed (raw : JsStr)

/-- JavaScript truthiness of the stored string: a string is falsy exactly when
it is empty.  A well-formed JSON document is never the empty string. -/
def StoredString.truthy : StoredString → Bool
  | .wellFormed _ => true
  | .malformed raw => !raw.isEmpty

/-- Model of the browser's `JSON.parse`: returns the parse tree of a
well-formed document and throws (here: `Except.error` carrying the offending
text) on malformed input. -/
def jsonParse : StoredString → Except JsStr Json
  | .wellFormed j => Except.ok j
  | .malformed raw => Except.error raw

/-- Model of the browser's `JSON.stringify`: emits a well-formed JSON document
whose parse tree is the serialized value. -/
def jsonStringify (j : Json) : StoredString :=
  StoredString.wellFormed j

/-- Serialization of one task by `JSON.stringify`: the JSON object with the
seven fields of the object literal at src/script.js lines 65-73. -/
def Task.toJson (t : Task) : Json :=
  Json.obj [("id".toList, Json.str t.id),
            ("title".toList, Json.str t.title),
            ("description".toList, Json.str t.description),
            ("dueDate".toList, Json.str t.dueDate),
            ("priority".toList, Json.str t.priority),
            ("completed".toList, Json.bool t.completed),
            ("createdAt".toList, Json.str t.createdAt)]

/-- Property access on a parsed JSON object (`obj.key` in JavaScript).  With
duplicate keys `JSON.parse` keeps the last occurrence, hence the reverse
search.  Access on a non-object yields nothing. -/
def Json.getField : Json → JsStr → Option Json
  | .obj members, key => (members.reverse.find? (fun kv => kv.1 == key)).map (fun kv => kv.2)
  | _, _ => none

/-- Read a JSON value as a string, as the code does when it uses a parsed
field as a string. -/
def Json.asStr : Json → Option JsStr
  | .str s => some s
  | _ => none

/-- Read a JSON value as a boolean. -/
def Json.asBool : Json → Option Bool
  | .bool b => some b
  | _ => none

/-- Read a parsed JSON value back as a task record: the identification of a
parsed object with a `Task` that the code applies to everything `loadTasks`
returns (it uses the parsed objects directly as tasks). -/
def Json.toTask (j : Json) : Option Task := do
  let id ← (j.getField ("id".toList)).bind Json.asStr
  let title ← (j.getField ("title".toList)).bind Json.asStr
  let description ← (j.getField ("description".toList)).bind Json.asStr
  let dueDate ← (j.getField ("dueDate".toList)).bind Json.asStr
  let priority ← (j.getField ("priority".toList)).bind Json.asStr
  let completed ← (j.getField ("completed".toList)).bind Json.asBool
  let createdAt ← (j.getField ("createdAt".toList)).bind Json.asStr
  pure { id := id, title := title, description := description, dueDate := dueDate,
         priority := priority, completed := completed, createdAt := createdAt }

/-- Read a list of parsed JSON values back as task records. -/
def Json.toTaskList : List Json → Option (List Task)
  | [] => some []
  | j :: rest => do
      let t ← j.toTask
      let ts ← Json.toTaskList rest
      pure (t :: ts)

/-- Read a parsed JSON value back as a task collection (a JSON array of task
objects). -/
def Json.toTasks : Json → Option (List Task)
  | .arr elems => Json.toTaskList elems
  | _ => none

/-- Model of `loadTasks` (src/script.js lines 255-258):
`const saved = localStorage.getItem('tasks'); return saved ? JSON.parse(saved) : [];`.
A missing key (`none`) or a falsy (empty) string yields the empty array;
otherwise the string is handed to `JSON.parse`, whose exception, if any,
propagates (there is no try/catch in the source). -/
def loadTasks (saved : Option StoredString) : Except JsStr Json :=
  match saved with
  | none => Except.ok (Json.arr [])
  | some s => if s.truthy then jsonParse s else Except.ok (Json.arr [])

/-- The state of the `TaskManager` object (src/script.js lines 5-12) relevant
to the store: the task collection `this.tasks`, the backing `localStorage`
slot `tasks`, and the view state `this.currentFilter` / `this.searchTerm`. -/
structure TaskManager where
  tasks : List Task
  storage : Option StoredString
  currentFilter : JsStr
  searchTerm : JsStr

/-- Model of `saveTasks` (src/script.js lines 247-249):
`localStorage.setItem('tasks', JSON.stringify(this.tasks))`. -/
def TaskManager.saveTasks (m : TaskManager) : TaskManager :=
  { m with storage := some (jsonStringify (Json.arr (m.tasks.map Task.toJson))) }

/-- The task object literal built by `addTask` (src/script.js lines 65-73)
from the trimmed form values, the clock reading `now` (for
`Date.now().toString()`) and its ISO rendering `nowIso` (for
`new Date().toISOString()`). -/
def Draft.toTask (draft : Draft) (now : Nat) (nowIso : JsStr) : Task :=
  { id := natToJsStr now,
    title := draft.title.trim,
    description := draft.description.trim,
    dueDate := draft.dueDate,
    priority := draft.priority,
    completed := false,
    createdAt := nowIso }

/-- Model of `addTask` (src/script.js lines 51-81).  The form values arrive in
`draft`; title and description are trimmed (lines 53-54).  A falsy (empty)
trimmed title triggers `alert('Please enter a task title')` and an early
return (lines 59-62), modelled by returning the unchanged manager together
with the alert message.  Otherwise the new task is unshifted onto the
collection and `saveTasks` runs (lines 76-77); rendering and form reset are
DOM effects outside the model. -/
def TaskManager.addTask (m : TaskManager) (now : Nat) (nowIso : JsStr) (draft : Draft) :
    TaskManager × Option JsStr :=
  let title := draft.title.trim
  if title.isEmpty then
    (m, some ("Please enter a task title".toList))
  else
    let task := draft.toTask now nowIso
    (TaskManager.saveTasks { m with tasks := task :: m.tasks }, none)

/-- Model of `editTask` (src/script.js lines 87-103).  If no task has the
given id the method returns before touching anything (line 90).  Otherwise the
form is populated from the task (a DOM effect outside the model), the task is
removed from the collection by the filter on line 99, and `saveTasks` runs. -/
def TaskManager.editTask (m : TaskManager) (id : JsStr) : TaskManager :=
  match m.tasks.find? (fun t => t.id == id) with
  | none => m
  | some _ => TaskManager.saveTasks { m with tasks := m.tasks.filter (fun t => !(t.id == id)) }

/-- Model of `deleteTask` (src/script.js lines 109-117).  The body runs only
when the user confirms the dialog; the user's answer is the explicit argument
`confirmed`.  When confirmed, tasks with the given id are filtered out and
`saveTasks` runs. -/
def TaskManager.deleteTask (m : TaskManager) (confirmed : Bool) (id : JsStr) : TaskManager :=
  if confirmed then
    TaskManager.saveTasks { m with tasks := m.tasks.filter (fun t => !(t.id == id)) }
  else m

/-- Model of `toggleTask` (src/script.js lines 123-131): map over the
collection, replacing the matching task by a copy with `completed` negated,
then `saveTasks`. -/
def TaskManager.toggleTask (m : TaskManager) (id : JsStr) : TaskManager :=
  TaskManager.saveTasks
    { m with tasks := m.tasks.map (fun t =>
        if t.id == id then { t with completed := !t.completed } else t) }

/-- Model of `setFilter` (src/script.js lines 137-146): store the filter;
button styling and re-rendering are DOM effects outside the model. -/
def TaskManager.setFilter (m : TaskManager) (filter : JsStr) : TaskManager :=
  { m with currentFilter := filter }

/-- Model of the search input binding (src/script.js lines 41-44):
`this.searchTerm = e.target.value.toLowerCase()` for the raw text typed by the
user. -/
def TaskManager.setSearchTerm (m : TaskManager) (raw : JsStr) : TaskManager :=
  { m with searchTerm := raw.toLower }

/-- Model of `getFilteredTasks` (src/script.js lines 152-171): status filter
first (`active` keeps the not-completed, `completed` keeps the completed,
anything else keeps all), then, when the search term is truthy (non-empty),
the substring filter over the lowercased title and, when the description is
truthy (non-empty), the lowercased description. -/
def TaskManager.getFilteredTasks (m : TaskManager) : List Task :=
  let filtered := m.tasks
  let filtered :=
    if m.currentFilter = "active".toList then
      filtered.filter (fun t => !t.completed)
    else if m.currentFilter = "completed".toList then
      filtered.filter (fun t => t.completed)
    else filtered
  if !m.searchTerm.isEmpty then
    filtered.filter (fun t =>
      (t.title.toLower.includes m.searchTerm) ||
      (!t.description.isEmpty && t.description.toLower.includes m.searchTerm))
  else filtered

/-- The spec's `query(filter, searchTerm)`: select the filter, type the raw
search term (which the input binding lowercases), and read the filtered
view. -/
def TaskManager.query (m : TaskManager) (filter raw : JsStr) : List Task :=
  ((m.setFilter filter).setSearchTerm raw).getFilteredTasks

/-- Model of the counts computed by `updateStats` (src/script.js lines
224-234): total, completed, and pending tasks. -/
def TaskManager.stats (m : TaskManager) : Nat × Nat × Nat :=
  let total := m.tasks.length
  let completed := (m.tasks.filter (fun t => t.completed)).length
  (total, completed, total - completed)

/-- A manager in its initial state: no tasks, nothing persisted yet, the
default filter `all` and an empty search term (src/script.js lines 6-11 with
an empty store). -/
def emptyManager : TaskManager :=
  { tasks := [], storage := none, currentFilter := ("all".toList), searchTerm := [] }

/-- A concrete task used to exercise the theorems on concrete data. -/
def sampleTask : Task :=
  { id := ("42".toList), title := ("Buy milk".toList), description := ("two liters".toList),
    dueDate := ("2025-01-01".toList), priority := ("low".toList), completed := false,
    createdAt := ("2025-01-01T00:00:00.000Z".toList) }

/-- A manager holding just `sampleTask`. -/
def sampleManager : TaskManager :=
  { tasks := [sampleTask], storage := none, currentFilter := ("all".toList), searchTerm := [] }

/-- The result of toggling `sampleTask`. -/
def sampleToggled : Task :=
  { sampleTask with completed := true }

/-- A draft whose title is only whitespace. -/
def blankDraft : Draft :=
  { title := ("   ".toList), description := [], dueDate := [], priority := ("medium".toList) }

/-- A draft with a non-empty title. -/
def milkDraft : Draft :=
  { title := ("Buy milk".toList), description := ("two liters".toList), dueDate := [],
    priority := ("low".toList) }

/-- A second draft with a non-empty title. -/
def dogDraft : Draft :=
  { title := ("Walk dog".toList), description := [], dueDate := [], priority := ("high".toList) }

/-- Two `addTask` calls performed during the same millisecond (both clock
readings are 1000), starting from the empty store. -/
def sameMillisecondRun : TaskManager :=
  ((emptyManager.addTask 1000 ("iso".toList) milkDraft).1.addTask 1000 ("iso".toList) dogDraft).1

/-! Helper lemmas about the string model. -/

/-- The JavaScript substring test agrees with list infixhood. -/
theorem JsStr.includes_iff (hay needle : JsStr) :
    hay.includes needle = true ↔ needle <:+: hay := by
  induction hay with
  | nil =>
    simp [JsStr.includes, List.isEmpty_iff, List.infix_nil]
  | cons c rest ih =>
    simp [JsStr.includes, Bool.or_eq_true, List.isPrefixOf_iff_prefix, ih,
      List.infix_cons_iff]

/-- Trimming a string of nothing but whitespace leaves the empty string. -/
theorem JsStr.trim_eq_nil (s : JsStr) (h : ∀ c ∈ s, c.isWhitespace = true) :
    s.trim = [] := by
  unfold JsStr.trim
  rw [List.dropWhile_eq_nil_iff.mpr h]
  rfl

/-- Reading back the serialization of one task recovers the task. -/
theorem Json.toTask_toJson (t : Task) : Json.toTask (Task.toJson t) = some t := rfl

/-- Reading back the serialization of a task list recovers the list. -/
theorem Json.toTaskList_map (ts : List Task) :
    Json.toTaskList (ts.map Task.toJson) = some ts := by
  induction ts with
  | nil => rfl
  | cons t rest ih =>
    simp [List.map, Json.toTaskList, Json.toTask_toJson, ih]

/-! Claim theorems. -/

/-- C1, counterexample.  The claim says a stored string that is not valid
JSON makes `load()` return the empty collection; instead, on the concrete
corrupt stored string `not valid json` the code propagates the `JSON.parse`
error and does not return the empty array. -/
theorem loadTasks_corrupt_counterexample :
    loadTasks (some (StoredString.malformed ("not valid json".toList)))
        = Except.error ("not valid json".toList)
    ∧ loadTasks (some (StoredString.malformed ("not valid json".toList)))
        ≠ Except.ok (Json.arr []) :=
  ⟨rfl, fun h => nomatch h⟩

/-- C1, amended.  `load()` returns the empty collection when the backing key
is absent or when the stored string is empty (falsy), and returns the parsed
value of a well-formed stored document; but when the stored string is
non-empty and not valid JSON, the `JSON.parse` error propagates instead of an
empty collection being returned. -/
theorem loadTasks_amended :
    loadTasks none = Except.ok (Json.arr [])
    ∧ loadTasks (some (StoredString.malformed [])) = Except.ok (Json.arr [])
    ∧ (∀ j : Json, loadTasks (some (StoredString.wellFormed j)) = Except.ok j)
    ∧ (∀ raw : JsStr, raw ≠ [] →
        loadTasks (some (StoredString.malformed raw)) = Except.error raw) := by
  refine ⟨rfl, rfl, fun j => rfl, fun raw h => ?_⟩
  have hne : raw.isEmpty = false := List.isEmpty_eq_false.mpr h
  simp [loadTasks, StoredString.truthy, jsonParse, hne]

/-- C1, witness for `loadTasks_amended` at a concrete corrupt string. -/
theorem loadTasks_amended_witness :
    loadTasks (some (StoredString.malformed ("x".toList))) = Except.error ("x".toList) :=
  loadTasks_amended.2.2.2 ("x".toList) (by decide)

/-- C5.  Saving a collection and loading the persisted value back succeeds
and yields exactly the original collection (persist-then-reload round-trip
is the identity on the task list). -/
theorem save_load_roundtrip (m : TaskManager) :
    loadTasks (m.saveTasks).storage = Except.ok (Json.arr (m.tasks.map Task.toJson))
    ∧ Json.toTasks (Json.arr (m.tasks.map Task.toJson)) = some m.tasks := by
  refine ⟨rfl, ?_⟩
  show Json.toTaskList (m.tasks.map Task.toJson) = some m.tasks
  exact Json.toTaskList_map m.tasks

/-- C2.  Concrete run showing the id generator of `addTask`
(`Date.now().toString()`, src/script.js line 66) is not fresh: starting from
the empty collection, two adds performed during the same millisecond (both
clock readings 1000) both succeed and both receive the id `1000`, so the
resulting collection does not have pairwise-distinct ids. -/
theorem addTask_same_millisecond_duplicate_ids :
    sameMillisecondRun.tasks.map Task.id = [("1000".toList), ("1000".toList)]
    ∧ sameMillisecondRun.tasks.length = 2
    ∧ ¬ (sameMillisecondRun.tasks.map Task.id).Nodup := by
  decide

/-- C3.  A draft whose title is empty or consists only of whitespace is
rejected: `addTask` raises the validation alert `Please enter a task title`
and returns with the manager (collection and persisted value) exactly
unchanged. -/
theorem addTask_rejects_blank_title (m : TaskManager) (now : Nat) (nowIso : JsStr)
    (draft : Draft)
    (h : draft.title = [] ∨ ∀ c ∈ draft.title, c.isWhitespace = true) :
    m.addTask now nowIso draft = (m, some ("Please enter a task title".toList)) := by
  have htrim : draft.title.trim = [] := by
    cases h with
    | inl h => rw [h]; rfl
    | inr h => exact JsStr.trim_eq_nil _ h
  simp [TaskManager.addTask, htrim]

/-- C3, witness for `addTask_rejects_blank_title` on a whitespace-only
draft. -/
theorem addTask_rejects_blank_title_witness :
    emptyManager.addTask 5 ("iso".toList) blankDraft
      = (emptyManager, some ("Please enter a task title".toList)) :=
  addTask_rejects_blank_title emptyManager 5 ("iso".toList) blankDraft (Or.inr (by decide))

/-- C4.  For a draft whose title is non-empty after trimming, `addTask`
prepends the created task: the collection grows by exactly one, the created
task is the head of an unfiltered query (`query('all', '')`), and no
validation alert is raised. -/
theorem addTask_inserts_front (m : TaskManager) (now : Nat) (nowIso : JsStr)
    (draft : Draft) (h : draft.title.trim ≠ []) :
    (m.addTask now nowIso draft).1.tasks = draft.toTask now nowIso :: m.tasks
    ∧ (m.addTask now nowIso draft).1.tasks.length = m.tasks.length + 1
    ∧ ((m.addTask now nowIso draft).1.query ("all".toList) []).head?
        = some (draft.toTask now nowIso)
    ∧ (m.addTask now nowIso draft).2 = none := by
  have hE : draft.title.trim.isEmpty = false := List.isEmpty_eq_false.mpr h
  refine ⟨?_, ?_, ?_, ?_⟩ <;>
    simp [TaskManager.addTask, hE, TaskManager.saveTasks, TaskManager.query,
      TaskManager.setFilter, TaskManager.setSearchTerm, TaskManager.getFilteredTasks,
      JsStr.toLower]

/-- C4, witness for `addTask_inserts_front` on a concrete draft. -/
theorem addTask_inserts_front_witness :
    (emptyManager.addTask 5 ("iso".toList) milkDraft).1.tasks.length
      = emptyManager.tasks.length + 1 :=
  (addTask_inserts_front emptyManager 5 ("iso".toList) milkDraft (by decide)).2.1

/-- C6.  With an empty search term, `query('completed', '')` is exactly the
completed tasks and `query('active', '')` exactly the not-completed ones, each
kept in the collection's current order (they are sublists of the collection);
the underlying collection is untouched by the query pipeline. -/
theorem query_status_filters (m : TaskManager) :
    m.query ("completed".toList) [] = m.tasks.filter (fun t => t.completed)
    ∧ m.query ("active".toList) [] = m.tasks.filter (fun t => !t.completed)
    ∧ (m.query ("completed".toList) []).Sublist m.tasks
    ∧ (m.query ("active".toList) []).Sublist m.tasks
    ∧ (∀ t, t ∈ m.query ("completed".toList) [] ↔ t ∈ m.tasks ∧ t.completed = true)
    ∧ (∀ t, t ∈ m.query ("active".toList) [] ↔ t ∈ m.tasks ∧ t.completed = false)
    ∧ ((m.setFilter ("completed".toList)).setSearchTerm []).tasks = m.tasks := by
  have hc : m.query ("completed".toList) [] = m.tasks.filter (fun t => t.completed) := rfl
  have ha : m.query ("active".toList) [] = m.tasks.filter (fun t => !t.completed) := rfl
  refine ⟨hc, ha, ?_, ?_, ?_, ?_, rfl⟩
  · rw [hc]; exact List.filter_sublist _
  · rw [ha]; exact List.filter_sublist _
  · intro t; rw [hc]; simp [List.mem_filter]
  · intro t; rw [ha]; simp [List.mem_filter]

/-- C7.  Search matching is case-insensitive substring matching over title and
description: a task appears in `query(filter, raw)` exactly when it passes the
status filter (it appears in `query(filter, '')`) and the lowercased search
term occurs as a substring of the lowercased title or of the lowercased
description. -/
theorem query_search_characterization (m : TaskManager) (filter raw : JsStr) (t : Task) :
    t ∈ m.query filter raw ↔
      t ∈ m.query filter []
      ∧ (raw.toLower <:+: t.title.toLower ∨ raw.toLower <:+: t.description.toLower) := by
  by_cases hraw : raw = []
  · subst hraw
    simp [List.nil_infix, JsStr.toLower]
  · have hne : raw.toLower ≠ [] := by
      intro hmap
      exact hraw (List.map_eq_nil_iff.mp hmap)
    have hE : (raw.toLower).isEmpty = false := List.isEmpty_eq_false.mpr hne
    simp only [TaskManager.query, TaskManager.setFilter, TaskManager.setSearchTerm,
      TaskManager.getFilteredTasks, JsStr.toLower, List.map_nil, List.isEmpty_nil,
      Bool.not_true, Bool.false_eq_true, if_false]
    rw [show ((List.map Char.toLower raw).isEmpty : Bool) = false from hE]
    simp only [Bool.not_false, if_true, List.mem_filter, Bool.or_eq_true,
      Bool.and_eq_true, Bool.not_eq_true', List.isEmpty_eq_false, JsStr.includes_iff]
    constructor
    · rintro ⟨hmem, htitle | ⟨_, hdesc⟩⟩
      · exact ⟨hmem, Or.inl htitle⟩
      · exact ⟨hmem, Or.inr hdesc⟩
    · rintro ⟨hmem, htitle | hdesc⟩
      · exact ⟨hmem, Or.inl htitle⟩
      · refine ⟨hmem, Or.inr ⟨?_, hdesc⟩⟩
        intro hdnil
        have : t.description.toLower = [] := by
          simp [JsStr.toLower, hdnil]
        rw [show List.map Char.toLower t.description = ([] : JsStr) from this] at hdesc
        exact hne (List.infix_nil.mp hdesc)

/-- C8.  When some task carries the given id, `editTask` removes every task
with that id (no update-in-place), keeps all other tasks in order, and
persists the shrunken collection; when no task carries the id, `editTask`
returns before touching anything, leaving the manager exactly unchanged. -/
theorem editTask_spec (m : TaskManager) (id : JsStr) :
    ((∃ t ∈ m.tasks, t.id = id) →
        (∀ t ∈ (m.editTask id).tasks, t.id ≠ id)
        ∧ (∀ t ∈ m.tasks, t.id ≠ id → t ∈ (m.editTask id).tasks)
        ∧ (m.editTask id).tasks.Sublist m.tasks
        ∧ (m.editTask id).storage
            = some (jsonStringify (Json.arr ((m.editTask id).tasks.map Task.toJson))))
    ∧ ((∀ t ∈ m.tasks, t.id ≠ id) → m.editTask id = m) := by
  constructor
  · rintro ⟨a, ha, haid⟩
    have hsome : (m.tasks.find? (fun t => t.id == id)).isSome = true :=
      List.find?_isSome.mpr ⟨a, ha, by simpa [beq_iff_eq] using haid⟩
    obtain ⟨x, hx⟩ := Option.isSome_iff_exists.mp hsome
    have hed : m.editTask id
        = TaskManager.saveTasks { m with tasks := m.tasks.filter (fun t => !(t.id == id)) } := by
      unfold TaskManager.editTask
      rw [hx]
    refine ⟨?_, ?_, ?_, ?_⟩
    · intro t ht
      rw [hed] at ht
      have hmemf : t ∈ m.tasks.filter (fun t => !(t.id == id)) := by
        simpa [TaskManager.saveTasks] using ht
      have := (List.mem_filter.mp hmemf).2
      simpa [Bool.not_eq_true', beq_eq_false_iff_ne] using this
    · intro t ht htid
      rw [hed]
      have hb : (t.id == id) = false := beq_eq_false_iff_ne.mpr htid
      simp [TaskManager.saveTasks, List.mem_filter, ht, hb]
    · rw [hed]
      exact List.filter_sublist m.tasks
    · rw [hed]
      rfl
  · intro hall
    have hnone : m.tasks.find? (fun t => t.id == id) = none := by
      apply List.find?_eq_none.mpr
      intro x hx
      simpa [beq_iff_eq] using hall x hx
    unfold TaskManager.editTask
    rw [hnone]

/-- C8, witness for `editTask_spec`: removing the present id `42` yields a
sublist, and the absent id `zz` is a complete no-op. -/
theorem editTask_spec_witness :
    (sampleManager.editTask ("42".toList)).tasks.Sublist sampleManager.tasks
    ∧ sampleManager.editTask ("zz".toList) = sampleManager :=
  ⟨((editTask_spec sampleManager ("42".toList)).1 ⟨sampleTask, by decide, by decide⟩).2.2.1,
   (editTask_spec sampleManager ("zz".toList)).2 (by decide)⟩

/-- C9.  For an id carried by no task in the collection, `deleteTask` (with
the dialog confirmed or not) and `toggleTask` leave the collection exactly
unchanged. -/
theorem delete_toggle_absent_id_noop (m : TaskManager) (id : JsStr)
    (h : ∀ t ∈ m.tasks, t.id ≠ id) :
    (m.deleteTask true id).tasks = m.tasks
    ∧ (m.deleteTask false id).tasks = m.tasks
    ∧ (m.toggleTask id).tasks = m.tasks := by
  have hfilter : m.tasks.filter (fun t => !(t.id == id)) = m.tasks := by
    apply List.filter_eq_self.mpr
    intro a ha
    simpa [Bool.not_eq_true', beq_eq_false_iff_ne] using h a ha
  have hmap : m.tasks.map
      (fun t => if t.id == id then { t with completed := !t.completed } else t) = m.tasks := by
    calc m.tasks.map (fun t => if t.id == id then { t with completed := !t.completed } else t)
        = m.tasks.map (fun a => a) := List.map_congr_left (fun a ha => by
          have hb : (a.id == id) = false := beq_eq_false_iff_ne.mpr (h a ha)
          simp [hb])
      _ = m.tasks := List.map_id' _
  refine ⟨?_, rfl, ?_⟩
  · simpa [TaskManager.deleteTask, TaskManager.saveTasks] using hfilter
  · simpa [TaskManager.toggleTask, TaskManager.saveTasks] using hmap

/-- C9, witness for `delete_toggle_absent_id_noop` at the absent id `zz`. -/
theorem delete_toggle_absent_id_noop_witness :
    (sampleManager.deleteTask true ("zz".toList)).tasks = sampleManager.tasks
    ∧ (sampleManager.deleteTask false ("zz".toList)).tasks = sampleManager.tasks
    ∧ (sampleManager.toggleTask ("zz".toList)).tasks = sampleManager.tasks :=
  delete_toggle_absent_id_noop sampleManager ("zz".toList) (by decide)

/-- C10.  `toggleTask` preserves the length and order of the collection; at
every position the task keeps its id, title, description, due date, priority
and creation time; a task whose id differs from the given one is entirely
unchanged, the matching task has exactly its completed flag negated; and
toggling the same id twice restores the original collection. -/
theorem toggleTask_frame (m : TaskManager) (id : JsStr) :
    (m.toggleTask id).tasks.length = m.tasks.length
    ∧ (∀ i : Nat, ∀ t t' : Task, m.tasks[i]? = some t →
        (m.toggleTask id).tasks[i]? = some t' →
        t'.id = t.id ∧ t'.title = t.title ∧ t'.description = t.description
        ∧ t'.dueDate = t.dueDate ∧ t'.priority = t.priority ∧ t'.createdAt = t.createdAt
        ∧ (t.id ≠ id → t' = t) ∧ (t.id = id → t'.completed = !t.completed))
    ∧ ((m.toggleTask id).toggleTask id).tasks = m.tasks := by
  have htg : (m.toggleTask id).tasks
      = m.tasks.map (fun t => if t.id == id then { t with completed := !t.completed } else t) :=
    rfl
  refine ⟨?_, ?_, ?_⟩
  · rw [htg]; exact List.length_map _ _
  · intro i t t' hti hti'
    rw [htg, List.getElem?_map, hti] at hti'
    have ht' : t' = if t.id == id then { t with completed := !t.completed } else t := by
      simpa using hti'.symm
    by_cases hid : t.id = id
    · have hb : (t.id == id) = true := beq_iff_eq.mpr hid
      rw [hb] at ht'
      simp only [if_true] at ht'
      subst ht'
      exact ⟨rfl, rfl, rfl, rfl, rfl, rfl, fun hc => absurd hid hc, fun _ => rfl⟩
    · have hb : (t.id == id) = false := beq_eq_false_iff_ne.mpr hid
      rw [hb] at ht'
      simp only [Bool.false_eq_true, if_false] at ht'
      subst ht'
      exact ⟨rfl, rfl, rfl, rfl, rfl, rfl, fun _ => rfl, fun hc => absurd hc hid⟩
  · have hgg : ∀ a : Task,
        (fun t => if t.id == id then { t with completed := !t.completed } else t)
          ((fun t => if t.id == id then { t with completed := !t.completed } else t) a) = a := by
      intro a
      by_cases hid : a.id = id
      · have hb : (a.id == id) = true := beq_iff_eq.mpr hid
        simp [hb]
      · have hb : (a.id == id) = false := beq_eq_false_iff_ne.mpr hid
        simp [hb]
    calc ((m.toggleTask id).toggleTask id).tasks
        = (m.tasks.map
            (fun t => if t.id == id then { t with completed := !t.completed } else t)).map
            (fun t => if t.id == id then { t with completed := !t.completed } else t) := rfl
      _ = m.tasks.map
            ((fun t => if t.id == id then { t with completed := !t.completed } else t)
              ∘ (fun t => if t.id == id then { t with completed := !t.completed } else t)) :=
          List.map_map _ _ _
      _ = m.tasks.map (fun a => a) := List.map_congr_left (fun a _ => by
          simpa [Function.comp] using hgg a)
      _ = m.tasks := List.map_id' _

/-- C10, witness for `toggleTask_frame`: in the one-task manager, toggling the
id `42` flips exactly the completed flag of the matching task. -/
theorem toggleTask_frame_witness :
    sampleToggled.completed = !sampleTask.completed :=
  ((toggleTask_frame sampleManager ("42".toList)).2.1 0 sampleTask sampleToggled
      (by decide) (by decide)).2.2.2.2.2.2.2 (by decide)

end TaskMaster
